import Mathlib

/-!
Verification of the `workerpool` package (src/workerpool/workerpool.go).

The package is a bounded-concurrency task executor: a fixed number of
workers drain a shared channel of `TaskHandler`s, the first observed error
(task-returned or watchdog timeout) is latched into a capacity-1 error
channel, and `Wait` closes the queue, joins the workers and reads the latch
non-blockingly.

The embedding below is a small-step interleaving semantics over an explicit
`PoolState`.  Each atomic action of the Go program (a submission, a worker
dequeue, a watchdog firing, a task finishing, `Wait`'s close of the task
channel) is one event of the inductive type `Ev`; `stepEv` gives the effect
of each event on the state, and `runTrace` folds a whole interleaving.
Go channel semantics are modelled explicitly:

* the task channel (`p.task`, capacity `maxWorkersCount`) is `queue` plus a
  `queueClosed` flag; a send on a closed channel is a runtime panic, which
  `taskChanSend` exposes as `none` (inside `stepEv`, where a panic would
  abort the whole program, the send is modelled as a stutter so that safety
  invariants over traces remain meaningful);
* the error channel (`p.errChan`, capacity 1) is `errSlot : Option GoError`
  together with `pendingErr`, the queue of senders currently blocked on it.
  The worker's write (lines 101-109) is a `select`/`default` try-send,
  modelled by `latchTry`; the watchdog's write (line 89) is a plain
  blocking send, modelled by `latchBlocking`, whose value is parked in
  `pendingErr` when the buffer is full;
* a task is data: `eff` is the side effect it performs on a shared log when
  it runs, `res` the error value it returns.  A `DoWait` wrapper is the
  queue item `QItem.wrapped t d` where `d` identifies the private
  `doneChan`; closing that channel is recorded in `done`.
-/

namespace Workerpool

/-- An error value: either an error returned by a task, or
`context.DeadlineExceeded` produced by the watchdog's `ct.Err()`. -/
inductive GoError where
  | taskErr (n : Nat)
  | deadlineExceeded
deriving DecidableEq, Repr

/-- A `TaskHandler` as data: running it appends `eff` to the shared log and
returns `res`. -/
structure Task where
  eff : Nat
  res : Option GoError
deriving DecidableEq, Repr

/-- An item buffered in the task channel: a nil handler (`Do(nil)` is
legal Go), a plain handler submitted by `Do`, or the wrapper built by
`DoWait` around task `t` with private completion channel `d`. -/
inductive QItem where
  | nilTask
  | plain (t : Task)
  | wrapped (t : Task) (d : Nat)
deriving DecidableEq, Repr

/-- A task currently executing on some worker (between the channel receive
on line 77 and the return of `wt()` on line 99).  `doneId` is the wrapper's
completion channel if the item came from `DoWait`; `wdArmed` records that a
watchdog goroutine was started for this run (line 84: `p.timeout > 0` at
dispatch) and has neither fired nor been cancelled yet. -/
structure RunEntry where
  rid : Nat
  task : Task
  doneId : Option Nat
  wdArmed : Bool
deriving DecidableEq, Repr

/-- The shared state of a `WorkerPool` plus the observable world: the task
channel (`queue`, `queueCap`, `queueClosed`), the error channel (`errSlot`,
`errCap`, `pendingErr` = senders blocked on it), the atomic `closed` flag,
the configured `timeout`, the in-flight tasks (`running`, with `nextRid`
a fresh-id counter), the set of closed `DoWait` completion channels
(`done`) and the log of side effects of the tasks that have run (`log`). -/
structure PoolState where
  maxWorkersCount : Int
  queueCap : Nat
  errCap : Nat
  queue : List QItem
  queueClosed : Bool
  errSlot : Option GoError
  pendingErr : List GoError
  closed : Bool
  timeout : Nat
  running : List RunEntry
  nextRid : Nat
  done : List Nat
  log : List Nat
deriving DecidableEq, Repr

/-- `New` (lines 13-23): clamp `max` to at least 1, allocate the task
channel with that capacity and the error channel with capacity 1; all other
fields are Go zero values. -/
def New (max : Int) : PoolState :=
  let m := if max < 1 then 1 else max
  { maxWorkersCount := m
    queueCap := m.toNat
    errCap := 1
    queue := []
    queueClosed := false
    errSlot := none
    pendingErr := []
    closed := false
    timeout := 0
    running := []
    nextRid := 0
    done := []
    log := [] }

/-- `SetTimeout` (lines 26-28). -/
def SetTimeout (s : PoolState) (timeout : Nat) : PoolState :=
  { s with timeout := timeout }

/-- The closed-flag check of `Do`/`DoWait` (lines 44 and 58):
`atomic.LoadInt32(&p.closed) == 1`. -/
def closedCheck (s : PoolState) : Bool := s.closed

/-- A send on the task channel with Go semantics (lines 48 and 63):
sending on a closed channel is a runtime panic, returned as `none`.
A send that has to wait for buffer room is modelled as completing once room
exists, so capacity is not checked here. -/
def taskChanSend (s : PoolState) (it : QItem) : Option PoolState :=
  if s.queueClosed then none
  else some { s with queue := s.queue ++ [it] }

/-- The submission path shared by `Do` (lines 44-48) and `DoWait`
(lines 58-67) inside the trace semantics: return if the closed flag is set,
otherwise send the item on the task channel.  A send that would block
(buffer full) or panic (channel closed, see `taskChanSend`) is modelled as
a stutter. -/
def enqueue (s : PoolState) (it : QItem) : PoolState :=
  if s.closed then s
  else if s.queueClosed then s
  else if s.queue.length < s.queueCap then { s with queue := s.queue ++ [it] }
  else s

/-- The channel item corresponding to a `Do` argument: `Do(nil)` sends a
nil handler. -/
def itemOfFn : Option Task → QItem
  | none => QItem.nilTask
  | some t => QItem.plain t

/-- `Do` (lines 38-49): the submitted handler may be nil. -/
def Do (s : PoolState) (fn : Option Task) : PoolState :=
  enqueue s (itemOfFn fn)

/-- `DoWait`'s submission (lines 58-67): the wrapper around `task` that
closes the fresh completion channel `d` after `task()` returns. -/
def DoWaitSubmit (s : PoolState) (t : Task) (d : Nat) : PoolState :=
  enqueue s (QItem.wrapped t d)

/-- The blocked `DoWait` caller (line 68, `<-doneChan`) has been released:
its private completion channel has been closed. -/
def doWaitReturned (s : PoolState) (d : Nat) : Prop := d ∈ s.done

/-- The worker's error write (lines 101-109): a `select` with `default`,
i.e. a non-blocking try-send on `errChan`; only on success does the worker
store 1 into `closed` (line 106).  On failure the value is dropped. -/
def latchTry (s : PoolState) (e : GoError) : PoolState :=
  match s.errSlot with
  | none => { s with errSlot := some e, closed := true }
  | some _ => s

/-- The watchdog's error write (lines 89-92): a plain blocking send
`p.errChan <- ct.Err()` followed by `atomic.StoreInt32(&p.closed, 1)`.
When the buffer is full the sender blocks, so the value is parked in
`pendingErr` and the store of `closed` has not executed yet. -/
def latchBlocking (s : PoolState) (e : GoError) : PoolState :=
  match s.errSlot with
  | none => { s with errSlot := some e, closed := true }
  | some _ => { s with pendingErr := s.pendingErr ++ [e] }

/-- The running task with identifier `rid`, if any. -/
def findRun (s : PoolState) (rid : Nat) : Option RunEntry :=
  s.running.find? (fun en => en.rid == rid)

/-- A worker's channel receive (line 77) and the guard on lines 78-80:
a nil handler, or a set closed flag, is discarded without execution and the
worker loops; otherwise the task enters the running set, with a watchdog
armed when `p.timeout > 0` (line 84). -/
def deqStep (s : PoolState) : PoolState :=
  match s.queue with
  | [] => s
  | it :: rest =>
    if it = QItem.nilTask ∨ s.closed = true then { s with queue := rest }
    else
      match it with
      | QItem.nilTask => { s with queue := rest }
      | QItem.plain t =>
        { s with queue := rest
                 running := s.running ++ [⟨s.nextRid, t, none, decide (0 < s.timeout)⟩]
                 nextRid := s.nextRid + 1 }
      | QItem.wrapped t d =>
        { s with queue := rest
                 running := s.running ++ [⟨s.nextRid, t, some d, decide (0 < s.timeout)⟩]
                 nextRid := s.nextRid + 1 }

/-- Mark the watchdog of the run `rid` as no longer able to fire, leaving
the run itself (its task, its completion channel) untouched. -/
def disarm (rid : Nat) (e : RunEntry) : RunEntry :=
  if e.rid = rid then { e with wdArmed := false } else e

/-- The watchdog of the run `rid` fires (lines 86-96, branch `<-ct.Done()`):
it performs the blocking error send of line 89 and, once that send has
completed, stores 1 into `closed` (line 92, inside `latchBlocking`).  The
running task itself is untouched; the watchdog is disarmed.  If the run is
no longer present (the task finished first, `close(closed)` on line 100 won
the select), nothing happens. -/
def fireWatchdog (s : PoolState) (rid : Nat) : PoolState :=
  match findRun s rid with
  | none => s
  | some en =>
    if en.wdArmed then
      let s1 := latchBlocking s GoError.deadlineExceeded
      { s1 with running := s1.running.map (disarm rid) }
    else s

/-- The run `rid` completes (lines 99-109): `err := wt()` returns — the
task's side effect lands in the log and, for a `DoWait` wrapper, the
private completion channel is closed before the wrapper returns; then
`close(closed)` cancels the watchdog (modelled by removing the entry), and
a non-nil error goes through the worker's try-send latch. -/
def finishRun (s : PoolState) (rid : Nat) : PoolState :=
  match findRun s rid with
  | none => s
  | some en =>
    let s1 := { s with log := s.log ++ [en.task.eff] }
    let s2 := match en.doneId with
              | some d => { s1 with done := s1.done ++ [d] }
              | none => s1
    let s3 := { s2 with running := s2.running.filter (fun e => e.rid != rid) }
    match en.task.res with
    | some e => latchTry s3 e
    | none => s3

/-- `close(p.task)` on line 117. -/
def closeTaskChan (s : PoolState) : PoolState := { s with queueClosed := true }

/-- The `select`/`default` read of `errChan` in `Wait` (lines 119-124):
non-blocking — an empty buffer yields `none` immediately.  Receiving the
buffered value lets a sender blocked on the channel complete its send into
the freed buffer slot. -/
def waitReceive (s : PoolState) : PoolState × Option GoError :=
  match s.errSlot with
  | none => (s, none)
  | some e =>
    match s.pendingErr with
    | [] => ({ s with errSlot := none }, some e)
    | e2 :: rest => ({ s with errSlot := some e2, pendingErr := rest }, some e)

/-- One atomic action of some goroutine of the program. -/
inductive Ev where
  | doIt (fn : Option Task)
  | doWaitEnq (t : Task) (d : Nat)
  | deq
  | fire (rid : Nat)
  | finish (rid : Nat)
  | setTimeoutEv (n : Nat)
  | waitClose
deriving DecidableEq, Repr

/-- Effect of one atomic action on the pool state. -/
def stepEv (s : PoolState) : Ev → PoolState
  | Ev.doIt fn => Do s fn
  | Ev.doWaitEnq t d => DoWaitSubmit s t d
  | Ev.deq => deqStep s
  | Ev.fire rid => fireWatchdog s rid
  | Ev.finish rid => finishRun s rid
  | Ev.setTimeoutEv n => SetTimeout s n
  | Ev.waitClose => closeTaskChan s

/-- An interleaving of atomic actions, run from a starting state. -/
def runTrace (s : PoolState) (tr : List Ev) : PoolState := tr.foldl stepEv s

/-- `Wait` (lines 116-125): close the task channel, let the workers run
(the interleaving `tr`), and once every worker has terminated — the queue
is closed and drained and no task is in flight, which is when all
`maxWorkersCount` range loops have exited and `p.wg.Wait()` returns —
perform the non-blocking read of the error channel.  `none` means the join
has not completed under `tr` and `Wait` is still blocked. -/
def waitRun (s : PoolState) (tr : List Ev) : Option (PoolState × Option GoError) :=
  let s1 := runTrace (closeTaskChan s) tr
  if s1.queue = [] ∧ s1.running = [] then some (waitReceive s1) else none

/-- View of a run that forgets the watchdog arming bit: the identifier, the
task being executed and its completion channel. -/
def runView (e : RunEntry) : Nat × Task × Option Nat := (e.rid, e.task, e.doneId)

/-- Trace side condition for `DoWait` reasoning: any `DoWait` submission in
the trace that uses completion channel `d` carries task `t`.  (`DoWait`
creates its completion channel fresh and private, so distinct calls never
share one.) -/
def enqOkB (t : Task) (d : Nat) : Ev → Bool
  | Ev.doWaitEnq t' d' => decide (d' ≠ d) || decide (t' = t)
  | _ => true

/-- Trace side condition: no `DoWait` submission in the trace uses
completion channel `d`. -/
def noEnqD (d : Nat) : Ev → Bool
  | Ev.doWaitEnq _ d' => decide (d' ≠ d)
  | _ => true

/-- Invariant tying the `DoWait` wrapper with completion channel `d` and
task `t` to the state: if `d` has been closed then `t` has run, and every
pending occurrence of `d` (queued or in flight) carries `t`. -/
def WrapInv (t : Task) (d : Nat) (s : PoolState) : Prop :=
  (d ∈ s.done → t.eff ∈ s.log) ∧
  (∀ t', QItem.wrapped t' d ∈ s.queue → t' = t) ∧
  (∀ en ∈ s.running, en.doneId = some d → en.task = t)

/-- Invariant: completion channel `d` is closed nowhere and referenced
nowhere in the pool. -/
def NoD (d : Nat) (s : PoolState) : Prop :=
  d ∉ s.done ∧ (∀ t', QItem.wrapped t' d ∉ s.queue) ∧
  (∀ en ∈ s.running, en.doneId ≠ some d)

/-! ### Concrete scenarios used by the theorems below -/

/-- A task that returns an error immediately. -/
def errTask : Task := ⟨1, some (GoError.taskErr 1)⟩

/-- A slow task that returns no error (its watchdog will outrun it). -/
def slowTask : Task := ⟨2, none⟩

/-- Two workers, per-task timeout 5. -/
def racePool : PoolState := SetTimeout (New 2) 5

/-- Both tasks get dispatched to the two workers (arming both watchdogs);
the erroring task finishes first and latches its error, closing the pool;
then the slow task's watchdog fires against a full error slot; finally the
slow task finishes. -/
def raceTrace : List Ev :=
  [Ev.doIt (some errTask), Ev.doIt (some slowTask), Ev.deq, Ev.deq,
   Ev.finish 0, Ev.fire 1, Ev.finish 1]

/-- A task with a visible side effect and no error. -/
def wdTask : Task := ⟨5, none⟩

/-- A run of `wdTask` with an armed watchdog. -/
def wdEntry : RunEntry := ⟨0, wdTask, none, true⟩

/-- A pool with `wdTask` in flight and its watchdog armed. -/
def wdPool : PoolState := { New 1 with timeout := 3, running := [wdEntry] }

/-- A pool whose closed flag has been set. -/
def closedPool : PoolState := { New 1 with closed := true }

/-- A pool whose queue holds a nil handler followed by a real task. -/
def nilHeadPool : PoolState :=
  { New 1 with queue := [QItem.nilTask, QItem.plain ⟨4, none⟩] }

/-- The task submitted through `DoWait` in the scenarios below. -/
def waitTask : Task := ⟨7, none⟩

/-- A `DoWait` submission that is dispatched and runs to completion. -/
def waitTrace : List Ev := [Ev.doWaitEnq waitTask 3, Ev.deq, Ev.finish 0]

/-- A closed pool whose queue still holds a `DoWait` wrapper. -/
def blockedPool : PoolState :=
  { New 1 with closed := true, queue := [QItem.wrapped waitTask 3] }

/-- A pool whose error slot is occupied. -/
def fullPool : PoolState := { New 1 with errSlot := some (GoError.taskErr 0) }

/-! ### Helper lemmas: which fields each atomic operation can touch -/

theorem enqueue_cases (s : PoolState) (it : QItem) :
    enqueue s it = s ∨ enqueue s it = { s with queue := s.queue ++ [it] } := by
  unfold enqueue
  split
  · exact Or.inl rfl
  split
  · exact Or.inl rfl
  split
  · exact Or.inr rfl
  · exact Or.inl rfl

theorem latchTry_cases (s : PoolState) (e : GoError) :
    latchTry s e = s ∨ latchTry s e = { s with errSlot := some e, closed := true } := by
  unfold latchTry
  cases s.errSlot
  · exact Or.inr rfl
  · exact Or.inl rfl

theorem latchBlocking_cases (s : PoolState) (e : GoError) :
    latchBlocking s e = { s with errSlot := some e, closed := true } ∨
    latchBlocking s e = { s with pendingErr := s.pendingErr ++ [e] } := by
  unfold latchBlocking
  cases s.errSlot
  · exact Or.inl rfl
  · exact Or.inr rfl

theorem waitReceive_snd (s : PoolState) : (waitReceive s).2 = s.errSlot := by
  unfold waitReceive
  cases s.errSlot
  · rfl
  · cases s.pendingErr <;> rfl

theorem deqStep_cases (s : PoolState) :
    deqStep s = s ∨
    (∃ it rest, s.queue = it :: rest ∧
      (deqStep s = { s with queue := rest } ∨
       ∃ t dOpt, deqStep s =
         { s with
           queue := rest
           running := s.running ++ [⟨s.nextRid, t, dOpt, decide (0 < s.timeout)⟩]
           nextRid := s.nextRid + 1 })) := by
  rcases hq : s.queue with _ | ⟨it, rest⟩
  · left
    simp [deqStep, hq]
  · refine Or.inr ⟨it, rest, rfl, ?_⟩
    by_cases hd : it = QItem.nilTask ∨ s.closed = true
    · left
      simp [deqStep, hq, hd]
    · have hc : s.closed = false := by
        rcases not_or.mp hd with ⟨-, hc⟩
        simpa using hc
      cases it with
      | nilTask => exact absurd (Or.inl rfl) hd
      | plain t => exact Or.inr ⟨t, none, by simp [deqStep, hq, hc]⟩
      | wrapped t d => exact Or.inr ⟨t, some d, by simp [deqStep, hq, hc]⟩

theorem enqueue_closed (s : PoolState) (it : QItem) :
    (enqueue s it).closed = s.closed := by
  rcases enqueue_cases s it with h | h <;> rw [h]

theorem enqueue_queueClosed (s : PoolState) (it : QItem) :
    (enqueue s it).queueClosed = s.queueClosed := by
  rcases enqueue_cases s it with h | h <;> rw [h]

theorem enqueue_done (s : PoolState) (it : QItem) :
    (enqueue s it).done = s.done := by
  rcases enqueue_cases s it with h | h <;> rw [h]

theorem enqueue_log (s : PoolState) (it : QItem) :
    (enqueue s it).log = s.log := by
  rcases enqueue_cases s it with h | h <;> rw [h]

theorem enqueue_running (s : PoolState) (it : QItem) :
    (enqueue s it).running = s.running := by
  rcases enqueue_cases s it with h | h <;> rw [h]

theorem latchTry_queue (s : PoolState) (e : GoError) :
    (latchTry s e).queue = s.queue := by
  rcases latchTry_cases s e with h | h <;> rw [h]

theorem latchTry_queueClosed (s : PoolState) (e : GoError) :
    (latchTry s e).queueClosed = s.queueClosed := by
  rcases latchTry_cases s e with h | h <;> rw [h]

theorem latchTry_done (s : PoolState) (e : GoError) :
    (latchTry s e).done = s.done := by
  rcases latchTry_cases s e with h | h <;> rw [h]

theorem latchTry_log (s : PoolState) (e : GoError) :
    (latchTry s e).log = s.log := by
  rcases latchTry_cases s e with h | h <;> rw [h]

theorem latchTry_running (s : PoolState) (e : GoError) :
    (latchTry s e).running = s.running := by
  rcases latchTry_cases s e with h | h <;> rw [h]

theorem latchTry_pendingErr (s : PoolState) (e : GoError) :
    (latchTry s e).pendingErr = s.pendingErr := by
  rcases latchTry_cases s e with h | h <;> rw [h]

theorem latchTry_closed_or (s : PoolState) (e : GoError) :
    (latchTry s e).closed = s.closed ∨ (latchTry s e).closed = true := by
  rcases latchTry_cases s e with h | h <;> rw [h]
  · exact Or.inl rfl
  · exact Or.inr rfl

theorem latchBlocking_queue (s : PoolState) (e : GoError) :
    (latchBlocking s e).queue = s.queue := by
  rcases latchBlocking_cases s e with h | h <;> rw [h]

theorem latchBlocking_queueClosed (s : PoolState) (e : GoError) :
    (latchBlocking s e).queueClosed = s.queueClosed := by
  rcases latchBlocking_cases s e with h | h <;> rw [h]

theorem latchBlocking_done (s : PoolState) (e : GoError) :
    (latchBlocking s e).done = s.done := by
  rcases latchBlocking_cases s e with h | h <;> rw [h]

theorem latchBlocking_log (s : PoolState) (e : GoError) :
    (latchBlocking s e).log = s.log := by
  rcases latchBlocking_cases s e with h | h <;> rw [h]

theorem latchBlocking_running (s : PoolState) (e : GoError) :
    (latchBlocking s e).running = s.running := by
  rcases latchBlocking_cases s e with h | h <;> rw [h]

theorem latchBlocking_closed_or (s : PoolState) (e : GoError) :
    (latchBlocking s e).closed = s.closed ∨ (latchBlocking s e).closed = true := by
  rcases latchBlocking_cases s e with h | h <;> rw [h]
  · exact Or.inr rfl
  · exact Or.inl rfl

theorem fireWatchdog_cases (s : PoolState) (rid : Nat) :
    fireWatchdog s rid = s ∨
    fireWatchdog s rid =
      { latchBlocking s GoError.deadlineExceeded with
        running := (latchBlocking s GoError.deadlineExceeded).running.map (disarm rid) } := by
  unfold fireWatchdog
  cases findRun s rid with
  | none => exact Or.inl rfl
  | some en =>
    cases hwd : en.wdArmed
    · exact Or.inl (by simp [hwd])
    · exact Or.inr (by simp [hwd])

theorem fireWatchdog_queue (s : PoolState) (rid : Nat) :
    (fireWatchdog s rid).queue = s.queue := by
  rcases fireWatchdog_cases s rid with h | h <;> rw [h]
  exact latchBlocking_queue s _

theorem fireWatchdog_queueClosed (s : PoolState) (rid : Nat) :
    (fireWatchdog s rid).queueClosed = s.queueClosed := by
  rcases fireWatchdog_cases s rid with h | h <;> rw [h]
  exact latchBlocking_queueClosed s _

theorem fireWatchdog_done (s : PoolState) (rid : Nat) :
    (fireWatchdog s rid).done = s.done := by
  rcases fireWatchdog_cases s rid with h | h <;> rw [h]
  exact latchBlocking_done s _

theorem fireWatchdog_log (s : PoolState) (rid : Nat) :
    (fireWatchdog s rid).log = s.log := by
  rcases fireWatchdog_cases s rid with h | h <;> rw [h]
  exact latchBlocking_log s _

theorem fireWatchdog_closed_or (s : PoolState) (rid : Nat) :
    (fireWatchdog s rid).closed = s.closed ∨ (fireWatchdog s rid).closed = true := by
  rcases fireWatchdog_cases s rid with h | h <;> rw [h]
  · exact Or.inl rfl
  · exact latchBlocking_closed_or s _

theorem fireWatchdog_running_cases (s : PoolState) (rid : Nat) :
    (fireWatchdog s rid).running = s.running ∨
    (fireWatchdog s rid).running = s.running.map (disarm rid) := by
  rcases fireWatchdog_cases s rid with h | h <;> rw [h]
  · exact Or.inl rfl
  · rw [latchBlocking_running]
    exact Or.inr rfl

theorem finishRun_none (s : PoolState) (rid : Nat) (h : findRun s rid = none) :
    finishRun s rid = s := by
  unfold finishRun
  rw [h]

theorem finishRun_queue (s : PoolState) (rid : Nat) :
    (finishRun s rid).queue = s.queue := by
  unfold finishRun
  cases findRun s rid with
  | none => rfl
  | some en =>
    obtain ⟨r, ⟨eff, res⟩, dI, wd⟩ := en
    cases dI <;> cases res <;>
      simp only [latchTry_queue]

theorem finishRun_queueClosed (s : PoolState) (rid : Nat) :
    (finishRun s rid).queueClosed = s.queueClosed := by
  unfold finishRun
  cases findRun s rid with
  | none => rfl
  | some en =>
    obtain ⟨r, ⟨eff, res⟩, dI, wd⟩ := en
    cases dI <;> cases res <;>
      simp only [latchTry_queueClosed]

theorem finishRun_pendingErr (s : PoolState) (rid : Nat) :
    (finishRun s rid).pendingErr = s.pendingErr := by
  unfold finishRun
  cases findRun s rid with
  | none => rfl
  | some en =>
    obtain ⟨r, ⟨eff, res⟩, dI, wd⟩ := en
    cases dI <;> cases res <;>
      simp only [latchTry_pendingErr]

theorem finishRun_closed_or (s : PoolState) (rid : Nat) :
    (finishRun s rid).closed = s.closed ∨ (finishRun s rid).closed = true := by
  unfold finishRun
  cases findRun s rid with
  | none => exact Or.inl rfl
  | some en =>
    obtain ⟨r, ⟨eff, res⟩, dI, wd⟩ := en
    cases dI <;> cases res <;>
      first
      | exact Or.inl rfl
      | exact latchTry_closed_or _ _

theorem finishRun_log (s : PoolState) (rid : Nat) (en : RunEntry)
    (h : findRun s rid = some en) :
    (finishRun s rid).log = s.log ++ [en.task.eff] := by
  unfold finishRun
  rw [h]
  obtain ⟨r, ⟨eff, res⟩, dI, wd⟩ := en
  cases dI <;> cases res <;>
    simp only [latchTry_log]

theorem finishRun_running (s : PoolState) (rid : Nat) (en : RunEntry)
    (h : findRun s rid = some en) :
    (finishRun s rid).running = s.running.filter (fun e => e.rid != rid) := by
  unfold finishRun
  rw [h]
  obtain ⟨r, ⟨eff, res⟩, dI, wd⟩ := en
  cases dI <;> cases res <;>
    simp only [latchTry_running]

theorem finishRun_done (s : PoolState) (rid : Nat) (en : RunEntry)
    (h : findRun s rid = some en) :
    (finishRun s rid).done = s.done ++ (match en.doneId with
                                        | some d => [d]
                                        | none => []) := by
  unfold finishRun
  rw [h]
  obtain ⟨r, ⟨eff, res⟩, dI, wd⟩ := en
  cases dI <;> cases res <;>
    simp only [latchTry_done, List.append_nil]

theorem deqStep_run_cases (s : PoolState) :
    deqStep s = s ∨
    (∃ it rest, s.queue = it :: rest ∧
      (deqStep s = { s with queue := rest } ∨
       (∃ t, it = QItem.plain t ∧ deqStep s =
         { s with
           queue := rest
           running := s.running ++ [⟨s.nextRid, t, none, decide (0 < s.timeout)⟩]
           nextRid := s.nextRid + 1 }) ∨
       (∃ t dd, it = QItem.wrapped t dd ∧ deqStep s =
         { s with
           queue := rest
           running := s.running ++ [⟨s.nextRid, t, some dd, decide (0 < s.timeout)⟩]
           nextRid := s.nextRid + 1 }))) := by
  rcases hq : s.queue with _ | ⟨it, rest⟩
  · left
    simp [deqStep, hq]
  · refine Or.inr ⟨it, rest, rfl, ?_⟩
    by_cases hd : it = QItem.nilTask ∨ s.closed = true
    · left
      simp [deqStep, hq, hd]
    · have hc : s.closed = false := by
        rcases not_or.mp hd with ⟨-, hc⟩
        simpa using hc
      cases it with
      | nilTask => exact absurd (Or.inl rfl) hd
      | plain t =>
        exact Or.inr (Or.inl ⟨t, rfl, by simp [deqStep, hq, hc]⟩)
      | wrapped t dd =>
        exact Or.inr (Or.inr ⟨t, dd, rfl, by simp [deqStep, hq, hc]⟩)

theorem disarm_rid (rid : Nat) (e : RunEntry) : (disarm rid e).rid = e.rid := by
  unfold disarm
  split <;> rfl

theorem disarm_task (rid : Nat) (e : RunEntry) : (disarm rid e).task = e.task := by
  unfold disarm
  split <;> rfl

theorem disarm_doneId (rid : Nat) (e : RunEntry) : (disarm rid e).doneId = e.doneId := by
  unfold disarm
  split <;> rfl

theorem runView_disarm (rid : Nat) (e : RunEntry) : runView (disarm rid e) = runView e := by
  unfold runView disarm
  split <;> rfl

theorem find?_map_disarm (rid : Nat) (l : List RunEntry) :
    (l.map (disarm rid)).find? (fun e => e.rid == rid) =
      (l.find? (fun e => e.rid == rid)).map (disarm rid) := by
  induction l with
  | nil => rfl
  | cons a l ih =>
    simp only [List.map_cons, List.find?_cons, disarm_rid]
    cases ha : (a.rid == rid) <;> simp [ha, ih]

theorem find?_filter_ne (rid : Nat) (l : List RunEntry) :
    (l.filter (fun e => e.rid != rid)).find? (fun e => e.rid == rid) = none := by
  rw [List.find?_eq_none]
  intro x hx
  have hne := (List.mem_filter.mp hx).2
  simp only [bne_iff_ne, ne_eq] at hne
  simp [hne]

theorem fireWatchdog_of_found (s : PoolState) (rid : Nat) (en : RunEntry)
    (h : findRun s rid = some en) :
    (en.wdArmed = false ∧ fireWatchdog s rid = s) ∨
    (en.wdArmed = true ∧ fireWatchdog s rid =
      { latchBlocking s GoError.deadlineExceeded with
        running := (latchBlocking s GoError.deadlineExceeded).running.map (disarm rid) }) := by
  unfold fireWatchdog
  rw [h]
  cases hwd : en.wdArmed
  · exact Or.inl ⟨rfl, by simp [hwd]⟩
  · exact Or.inr ⟨rfl, by simp [hwd]⟩

theorem findRun_fireWatchdog (s : PoolState) (rid : Nat) (en : RunEntry)
    (h : findRun s rid = some en) :
    findRun (fireWatchdog s rid) rid = some (disarm rid en) := by
  rcases fireWatchdog_of_found s rid en h with ⟨hwd, hfw⟩ | ⟨hwd, hfw⟩
  · rw [hfw, h]
    obtain ⟨r, tk, dI, wd⟩ := en
    unfold disarm
    split <;> simp_all
  · rw [hfw]
    show ((latchBlocking s GoError.deadlineExceeded).running.map (disarm rid)).find?
        (fun e => e.rid == rid) = _
    rw [find?_map_disarm, latchBlocking_running]
    rw [show s.running.find? (fun e => e.rid == rid) = some en from h]
    rfl

theorem findRun_finishRun (s : PoolState) (rid : Nat) :
    findRun (finishRun s rid) rid = none := by
  cases hf : findRun s rid with
  | none =>
    rw [finishRun_none s rid hf]
    exact hf
  | some en =>
    show (finishRun s rid).running.find? (fun e => e.rid == rid) = none
    rw [finishRun_running s rid en hf]
    exact find?_filter_ne rid s.running

/-! ### Monotonicity of the two one-way flags -/

theorem stepEv_closed_or (s : PoolState) (e : Ev) :
    (stepEv s e).closed = s.closed ∨ (stepEv s e).closed = true := by
  cases e with
  | doIt fn => exact Or.inl (enqueue_closed s _)
  | doWaitEnq t d => exact Or.inl (enqueue_closed s _)
  | deq =>
    rcases deqStep_cases s with h | ⟨it, rest, _, h | ⟨t, dOpt, h⟩⟩ <;>
      rw [show stepEv s Ev.deq = deqStep s from rfl, h] <;> exact Or.inl rfl
  | fire rid => exact fireWatchdog_closed_or s rid
  | finish rid => exact finishRun_closed_or s rid
  | setTimeoutEv n => exact Or.inl rfl
  | waitClose => exact Or.inl rfl

theorem stepEv_closed_mono (s : PoolState) (e : Ev) (h : s.closed = true) :
    (stepEv s e).closed = true := by
  rcases stepEv_closed_or s e with h' | h'
  · rw [h']
    exact h
  · exact h' 

theorem stepEv_queueClosed_mono (s : PoolState) (e : Ev) (h : s.queueClosed = true) :
    (stepEv s e).queueClosed = true := by
  cases e with
  | doIt fn =>
    have hs : stepEv s (Ev.doIt fn) = enqueue s (itemOfFn fn) := rfl
    rw [hs, enqueue_queueClosed]
    exact h
  | doWaitEnq t d =>
    have hs : stepEv s (Ev.doWaitEnq t d) = enqueue s (QItem.wrapped t d) := rfl
    rw [hs, enqueue_queueClosed]
    exact h
  | deq =>
    rcases deqStep_cases s with h' | ⟨it, rest, _, h' | ⟨t, dOpt, h'⟩⟩ <;>
      rw [show stepEv s Ev.deq = deqStep s from rfl, h'] <;> exact h
  | fire rid =>
    rw [show stepEv s (Ev.fire rid) = fireWatchdog s rid from rfl, fireWatchdog_queueClosed]
    exact h
  | finish rid =>
    rw [show stepEv s (Ev.finish rid) = finishRun s rid from rfl, finishRun_queueClosed]
    exact h
  | setTimeoutEv n => exact h
  | waitClose => rfl

theorem runTrace_cons (s : PoolState) (e : Ev) (tr : List Ev) :
    runTrace s (e :: tr) = runTrace (stepEv s e) tr := rfl

theorem runTrace_closed_mono (s : PoolState) (tr : List Ev) (h : s.closed = true) :
    (runTrace s tr).closed = true := by
  induction tr generalizing s with
  | nil => exact h
  | cons e tr ih => exact ih (stepEv s e) (stepEv_closed_mono s e h)

theorem runTrace_queueClosed_mono (s : PoolState) (tr : List Ev) (h : s.queueClosed = true) :
    (runTrace s tr).queueClosed = true := by
  induction tr generalizing s with
  | nil => exact h
  | cons e tr ih => exact ih (stepEv s e) (stepEv_queueClosed_mono s e h)

/-! ### Preservation of the `DoWait` invariants along any interleaving -/

theorem wrapInv_step (t : Task) (d : Nat) (s : PoolState) (e : Ev)
    (hs : WrapInv t d s) (he : enqOkB t d e = true) : WrapInv t d (stepEv s e) := by
  obtain ⟨h1, h2, h3⟩ := hs
  cases e with
  | doIt fn =>
    have hstep : stepEv s (Ev.doIt fn) = enqueue s (itemOfFn fn) := rfl
    rw [hstep]
    rcases enqueue_cases s _ with h | h <;> rw [h]
    · exact ⟨h1, h2, h3⟩
    · refine ⟨h1, ?_, h3⟩
      intro t' ht'
      rcases List.mem_append.mp ht' with hq | hq
      · exact h2 t' hq
      · exfalso
        cases fn <;> simp [itemOfFn] at hq
  | doWaitEnq t0 d0 =>
    have hstep : stepEv s (Ev.doWaitEnq t0 d0) = enqueue s (QItem.wrapped t0 d0) := rfl
    rw [hstep]
    rcases enqueue_cases s _ with h | h <;> rw [h]
    · exact ⟨h1, h2, h3⟩
    · refine ⟨h1, ?_, h3⟩
      intro t' ht'
      rcases List.mem_append.mp ht' with hq | hq
      · exact h2 t' hq
      · simp only [List.mem_singleton, QItem.wrapped.injEq] at hq
        obtain ⟨het, hed⟩ := hq
        simp only [enqOkB, Bool.or_eq_true, decide_eq_true_eq] at he
        rcases he with he | he
        · exact absurd hed.symm he
        · rw [het, he]
  | deq =>
    have hstep : stepEv s Ev.deq = deqStep s := rfl
    rw [hstep]
    rcases deqStep_run_cases s with h | ⟨it, rest, hq, h | ⟨t0, hit, h⟩ | ⟨t0, dd, hit, h⟩⟩ <;>
        rw [h]
    · exact ⟨h1, h2, h3⟩
    · refine ⟨h1, ?_, h3⟩
      intro t' ht'
      exact h2 t' (hq ▸ List.mem_cons_of_mem it ht')
    · refine ⟨h1, ?_, ?_⟩
      · intro t' ht'
        exact h2 t' (hq ▸ List.mem_cons_of_mem it ht')
      · intro en hen hdn
        rcases List.mem_append.mp hen with hr | hr
        · exact h3 en hr hdn
        · simp only [List.mem_singleton] at hr
          rw [hr] at hdn
          simp at hdn
    · refine ⟨h1, ?_, ?_⟩
      · intro t' ht'
        exact h2 t' (hq ▸ List.mem_cons_of_mem it ht')
      · intro en hen hdn
        rcases List.mem_append.mp hen with hr | hr
        · exact h3 en hr hdn
        · simp only [List.mem_singleton] at hr
          rw [hr] at hdn
          simp only [Option.some.injEq] at hdn
          rw [hr]
          have hhead : QItem.wrapped t0 d ∈ s.queue := by
            rw [hq, ← hdn, ← hit]
            exact List.mem_cons_self it rest
          exact h2 t0 hhead
  | fire rid =>
    have hstep : stepEv s (Ev.fire rid) = fireWatchdog s rid := rfl
    rw [hstep]
    refine ⟨?_, ?_, ?_⟩
    · rw [fireWatchdog_done, fireWatchdog_log]
      exact h1
    · intro t' ht'
      rw [fireWatchdog_queue] at ht'
      exact h2 t' ht'
    · intro en hen hdn
      rcases fireWatchdog_running_cases s rid with h | h <;> rw [h] at hen
      · exact h3 en hen hdn
      · obtain ⟨en0, hen0, rfl⟩ := List.mem_map.mp hen
        rw [disarm_task]
        exact h3 en0 hen0 (by rw [← disarm_doneId rid en0]; exact hdn)
  | finish rid =>
    have hstep : stepEv s (Ev.finish rid) = finishRun s rid := rfl
    rw [hstep]
    cases hf : findRun s rid with
    | none =>
      rw [finishRun_none s rid hf]
      exact ⟨h1, h2, h3⟩
    | some en =>
      refine ⟨?_, ?_, ?_⟩
      · intro hd
        rw [finishRun_log s rid en hf]
        rw [finishRun_done s rid en hf] at hd
        rcases List.mem_append.mp hd with hd | hd
        · exact List.mem_append_left _ (h1 hd)
        · cases hdI : en.doneId with
          | none =>
            rw [hdI] at hd
            simp at hd
          | some d0 =>
            rw [hdI] at hd
            simp only [List.mem_singleton] at hd
            have hmem : en ∈ s.running := by
              have hf' : s.running.find? (fun e => e.rid == rid) = some en := hf
              exact List.mem_of_find?_eq_some hf'
            have htask : en.task = t := h3 en hmem (by rw [hdI, hd])
            rw [htask]
            simp
      · intro t' ht'
        rw [finishRun_queue] at ht'
        exact h2 t' ht'
      · intro en' hen' hdn'
        rw [finishRun_running s rid en hf] at hen'
        exact h3 en' (List.mem_of_mem_filter hen') hdn'
  | setTimeoutEv n => exact ⟨h1, h2, h3⟩
  | waitClose => exact ⟨h1, h2, h3⟩

theorem wrapInv_runTrace (t : Task) (d : Nat) (s : PoolState) (tr : List Ev)
    (hs : WrapInv t d s) (htr : ∀ e ∈ tr, enqOkB t d e = true) :
    WrapInv t d (runTrace s tr) := by
  induction tr generalizing s with
  | nil => exact hs
  | cons e tr ih =>
    rw [runTrace_cons]
    exact ih (stepEv s e)
      (wrapInv_step t d s e hs (htr e (List.mem_cons_self e tr)))
      (fun e' he' => htr e' (List.mem_cons_of_mem e he'))

theorem noD_step (d : Nat) (s : PoolState) (e : Ev)
    (hs : NoD d s) (he : noEnqD d e = true) : NoD d (stepEv s e) := by
  obtain ⟨h1, h2, h3⟩ := hs
  cases e with
  | doIt fn =>
    have hstep : stepEv s (Ev.doIt fn) = enqueue s (itemOfFn fn) := rfl
    rw [hstep]
    rcases enqueue_cases s _ with h | h <;> rw [h]
    · exact ⟨h1, h2, h3⟩
    · refine ⟨h1, ?_, h3⟩
      intro t' ht'
      rcases List.mem_append.mp ht' with hq | hq
      · exact h2 t' hq
      · cases fn <;> simp [itemOfFn] at hq
  | doWaitEnq t0 d0 =>
    have hstep : stepEv s (Ev.doWaitEnq t0 d0) = enqueue s (QItem.wrapped t0 d0) := rfl
    rw [hstep]
    rcases enqueue_cases s _ with h | h <;> rw [h]
    · exact ⟨h1, h2, h3⟩
    · refine ⟨h1, ?_, h3⟩
      intro t' ht'
      rcases List.mem_append.mp ht' with hq | hq
      · exact h2 t' hq
      · simp only [List.mem_singleton, QItem.wrapped.injEq] at hq
        simp only [noEnqD, decide_eq_true_eq] at he
        exact he hq.2.symm
  | deq =>
    have hstep : stepEv s Ev.deq = deqStep s := rfl
    rw [hstep]
    rcases deqStep_run_cases s with h | ⟨it, rest, hq, h | ⟨t0, hit, h⟩ | ⟨t0, dd, hit, h⟩⟩ <;>
        rw [h]
    · exact ⟨h1, h2, h3⟩
    · refine ⟨h1, ?_, h3⟩
      intro t' ht'
      exact h2 t' (hq ▸ List.mem_cons_of_mem it ht')
    · refine ⟨h1, ?_, ?_⟩
      · intro t' ht'
        exact h2 t' (hq ▸ List.mem_cons_of_mem it ht')
      · intro en hen
        rcases List.mem_append.mp hen with hr | hr
        · exact h3 en hr
        · simp only [List.mem_singleton] at hr
          rw [hr]
          simp
    · refine ⟨h1, ?_, ?_⟩
      · intro t' ht'
        exact h2 t' (hq ▸ List.mem_cons_of_mem it ht')
      · intro en hen
        rcases List.mem_append.mp hen with hr | hr
        · exact h3 en hr
        · simp only [List.mem_singleton] at hr
          rw [hr]
          simp only [ne_eq, Option.some.injEq]
          intro hdd
          subst hdd
          exact h2 t0 (by rw [hq, hit]; exact List.mem_cons_self _ _)
  | fire rid =>
    have hstep : stepEv s (Ev.fire rid) = fireWatchdog s rid := rfl
    rw [hstep]
    refine ⟨?_, ?_, ?_⟩
    · rw [fireWatchdog_done]
      exact h1
    · intro t' ht'
      rw [fireWatchdog_queue] at ht'
      exact h2 t' ht'
    · intro en hen
      rcases fireWatchdog_running_cases s rid with h | h <;> rw [h] at hen
      · exact h3 en hen
      · obtain ⟨en0, hen0, rfl⟩ := List.mem_map.mp hen
        rw [disarm_doneId]
        exact h3 en0 hen0
  | finish rid =>
    have hstep : stepEv s (Ev.finish rid) = finishRun s rid := rfl
    rw [hstep]
    cases hf : findRun s rid with
    | none =>
      rw [finishRun_none s rid hf]
      exact ⟨h1, h2, h3⟩
    | some en =>
      refine ⟨?_, ?_, ?_⟩
      · rw [finishRun_done s rid en hf]
        intro hd
        rcases List.mem_append.mp hd with hd | hd
        · exact h1 hd
        · cases hdI : en.doneId with
          | none =>
            rw [hdI] at hd
            simp at hd
          | some d0 =>
            rw [hdI] at hd
            simp only [List.mem_singleton] at hd
            have hmem : en ∈ s.running := by
              have hf' : s.running.find? (fun e => e.rid == rid) = some en := hf
              exact List.mem_of_find?_eq_some hf'
            exact h3 en hmem (by rw [hdI, hd])
      · intro t' ht'
        rw [finishRun_queue] at ht'
        exact h2 t' ht'
      · intro en' hen'
        rw [finishRun_running s rid en hf] at hen'
        exact h3 en' (List.mem_of_mem_filter hen')
  | setTimeoutEv n => exact ⟨h1, h2, h3⟩
  | waitClose => exact ⟨h1, h2, h3⟩

theorem noD_runTrace (d : Nat) (s : PoolState) (tr : List Ev)
    (hs : NoD d s) (htr : ∀ e ∈ tr, noEnqD d e = true) :
    NoD d (runTrace s tr) := by
  induction tr generalizing s with
  | nil => exact hs
  | cons e tr ih =>
    rw [runTrace_cons]
    exact ih (stepEv s e)
      (noD_step d s e hs (htr e (List.mem_cons_self e tr)))
      (fun e' he' => htr e' (List.mem_cons_of_mem e he'))

theorem deq_discard (s : PoolState) (it : QItem) (rest : List QItem)
    (hq : s.queue = it :: rest) (hd : it = QItem.nilTask ∨ s.closed = true) :
    deqStep s = { s with queue := rest } := by
  simp [deqStep, hq, hd]

theorem map_runView_disarm (rid : Nat) (l : List RunEntry) :
    (l.map (disarm rid)).map runView = l.map runView := by
  induction l with
  | nil => rfl
  | cons a l ih => simp [runView_disarm, ih]

/-! ### The claims -/

/-- C1: `Wait()` closes the task queue, blocks until all of the pool's
workers have terminated (in the embedding: every interleaving `tr` under
which `Wait` returns has drained the queue and finished every in-flight
run, which is when all `maxWorkersCount` range loops have exited and
`wg.Wait()` unblocks), and then returns the error held in the error slot if
one is present, else nil; the read is the non-blocking
`select`/`default` of lines 119-124, so an empty slot yields nil rather
than blocking. -/
theorem wait_closes_joins_and_reads (s : PoolState) (tr : List Ev)
    (s2 : PoolState) (r : Option GoError)
    (h : waitRun s tr = some (s2, r)) :
    (runTrace (closeTaskChan s) tr).queueClosed = true ∧
    (runTrace (closeTaskChan s) tr).queue = [] ∧
    (runTrace (closeTaskChan s) tr).running = [] ∧
    r = (runTrace (closeTaskChan s) tr).errSlot := by
  have h' : (if (runTrace (closeTaskChan s) tr).queue = [] ∧
               (runTrace (closeTaskChan s) tr).running = []
             then some (waitReceive (runTrace (closeTaskChan s) tr))
             else none) = some (s2, r) := h
  by_cases hg : (runTrace (closeTaskChan s) tr).queue = [] ∧
      (runTrace (closeTaskChan s) tr).running = []
  · rw [if_pos hg] at h'
    have hrec : waitReceive (runTrace (closeTaskChan s) tr) = (s2, r) :=
      Option.some.inj h'
    refine ⟨runTrace_queueClosed_mono (closeTaskChan s) tr rfl, hg.1, hg.2, ?_⟩
    rw [← waitReceive_snd (runTrace (closeTaskChan s) tr), hrec]
  · rw [if_neg hg] at h'
    exact absurd h' (by simp)

/-- C1 witness: from a fresh single-worker pool with no worker activity,
`Wait` returns immediately with nil. -/
theorem wait_closes_joins_and_reads_witness :
    (runTrace (closeTaskChan (New 1)) []).queueClosed = true ∧
    (runTrace (closeTaskChan (New 1)) []).queue = [] ∧
    (runTrace (closeTaskChan (New 1)) []).running = [] ∧
    (none : Option GoError) = (runTrace (closeTaskChan (New 1)) []).errSlot :=
  wait_closes_joins_and_reads (New 1) [] (closeTaskChan (New 1)) none (by decide)

/-- C2 counterexample: the claim says every write to the error slot —
including the watchdog's — is a non-blocking first-writer-wins attempt and
that all errors after the first successful write are dropped, not queued.
In `raceTrace`, after the worker latches `taskErr 1` (the first successful
write), the slow task's watchdog performs its write (line 89) while the
slot is full: the deadline error is queued behind the slot (`pendingErr`),
not dropped, and after `Wait`'s read drains the slot the queued deadline
error becomes the slot's second-ever value. -/
theorem errslot_second_write_not_dropped :
    (runTrace racePool raceTrace).errSlot = some (GoError.taskErr 1) ∧
    (runTrace racePool raceTrace).pendingErr = [GoError.deadlineExceeded] ∧
    (waitReceive (runTrace racePool raceTrace)).1.errSlot =
      some GoError.deadlineExceeded := by
  decide

/-- C2 (amended): the worker's write to the error slot (lines 101-109) is a
non-blocking first-writer-wins attempt — when the slot is occupied the
value is dropped, nothing is queued; the watchdog's write (line 89) is a
blocking send — when the slot is occupied the timeout error is queued
behind it (the watchdog goroutine blocks) rather than dropped; when the
slot is free either write deposits its error and sets `closed`; and `Wait`
reads at most the single buffered error. -/
theorem errslot_write_disciplines (s : PoolState) (e : GoError) :
    (s.errSlot = none →
       latchTry s e = { s with errSlot := some e, closed := true } ∧
       latchBlocking s e = { s with errSlot := some e, closed := true }) ∧
    (s.errSlot ≠ none →
       latchTry s e = s ∧
       latchBlocking s e = { s with pendingErr := s.pendingErr ++ [e] }) ∧
    (waitReceive s).2 = s.errSlot := by
  refine ⟨?_, ?_, waitReceive_snd s⟩
  · intro h
    unfold latchTry latchBlocking
    rw [h]
    exact ⟨rfl, rfl⟩
  · intro h
    cases hs : s.errSlot with
    | none => exact absurd hs h
    | some e0 =>
      unfold latchTry latchBlocking
      rw [hs]
      exact ⟨rfl, rfl⟩

/-- C2 amended witness: both write disciplines evaluated on a free slot and
on an occupied slot. -/
theorem errslot_write_disciplines_witness :
    (latchTry (New 1) (GoError.taskErr 2) =
       { New 1 with errSlot := some (GoError.taskErr 2), closed := true } ∧
     latchBlocking (New 1) (GoError.taskErr 2) =
       { New 1 with errSlot := some (GoError.taskErr 2), closed := true }) ∧
    (latchTry fullPool (GoError.taskErr 2) = fullPool ∧
     latchBlocking fullPool (GoError.taskErr 2) =
       { fullPool with pendingErr := fullPool.pendingErr ++ [GoError.taskErr 2] }) :=
  ⟨(errslot_write_disciplines (New 1) (GoError.taskErr 2)).1 (by decide),
   (errslot_write_disciplines fullPool (GoError.taskErr 2)).2.1 (by decide)⟩

/-- C3: a `Do` or `DoWait` call made while the closed flag is true returns
without enqueuing: the task is dropped (the state, and in particular the
queue, the log and the error slot, is unchanged), it never executes, and no
error is surfaced to the caller. -/
theorem submit_after_closed_noop (s : PoolState) (fn : Option Task)
    (t : Task) (d : Nat) (h : s.closed = true) :
    Do s fn = s ∧ DoWaitSubmit s t d = s := by
  constructor <;> simp [Do, DoWaitSubmit, enqueue, h]

/-- C3 witness. -/
theorem submit_after_closed_noop_witness :
    Do closedPool (some ⟨9, none⟩) = closedPool ∧
    DoWaitSubmit closedPool ⟨9, none⟩ 0 = closedPool :=
  submit_after_closed_noop closedPool (some ⟨9, none⟩) ⟨9, none⟩ 0 (by decide)

/-- C4: when a worker dequeues an item that is the nil handler, or dequeues
while the closed flag is true, it discards the item without executing it —
the whole state except the consumed queue head is unchanged, so nothing is
re-enqueued, no run starts, no log entry and no error appear — and the
worker goes back to receiving from the queue rather than terminating (the
range loop of line 77 exits only once the queue is closed and drained). -/
theorem worker_discards_nil_or_closed (s : PoolState) (it : QItem)
    (rest : List QItem) (hq : s.queue = it :: rest)
    (hd : it = QItem.nilTask ∨ s.closed = true) :
    stepEv s Ev.deq = { s with queue := rest } :=
  deq_discard s it rest hq hd

/-- C4 witness: a nil handler at the head of the queue is consumed and
dropped. -/
theorem worker_discards_nil_or_closed_witness :
    stepEv nilHeadPool Ev.deq = { nilHeadPool with queue := [QItem.plain ⟨4, none⟩] } :=
  worker_discards_nil_or_closed nilHeadPool QItem.nilTask [QItem.plain ⟨4, none⟩]
    (by decide) (by decide)

/-- C5: the watchdog firing never interrupts the running task: the queue,
the log, the completion channels and every run (its identifier, task and
completion channel) are untouched — only the error machinery, the `closed`
flag and the arming bit can change; when it truly fires with the slot free
it writes exactly the deadline-exceeded error and sets `closed`; the task
afterwards still executes to natural completion (its effect reaches the
log); and if the task finishes first, a late watchdog is cancelled with no
side effects on pool state. -/
theorem watchdog_soft_timeout (s : PoolState) (rid : Nat) (en : RunEntry)
    (h : findRun s rid = some en) :
    (fireWatchdog s rid).queue = s.queue ∧
    (fireWatchdog s rid).log = s.log ∧
    (fireWatchdog s rid).done = s.done ∧
    (fireWatchdog s rid).running.map runView = s.running.map runView ∧
    findRun (fireWatchdog s rid) rid = some (disarm rid en) ∧
    (en.wdArmed = true → s.errSlot = none →
       (fireWatchdog s rid).errSlot = some GoError.deadlineExceeded ∧
       (fireWatchdog s rid).closed = true) ∧
    (finishRun (fireWatchdog s rid) rid).log = s.log ++ [en.task.eff] ∧
    fireWatchdog (finishRun s rid) rid = finishRun s rid := by
  refine ⟨fireWatchdog_queue s rid, fireWatchdog_log s rid, fireWatchdog_done s rid,
          ?_, findRun_fireWatchdog s rid en h, ?_, ?_, ?_⟩
  · rcases fireWatchdog_running_cases s rid with h' | h' <;> rw [h']
    exact map_runView_disarm rid s.running
  · intro hwd hslot
    rcases fireWatchdog_of_found s rid en h with ⟨hw, _⟩ | ⟨_, hfw⟩
    · rw [hwd] at hw
      exact absurd hw (by simp)
    · rw [hfw]
      constructor
      · show (latchBlocking s GoError.deadlineExceeded).errSlot = _
        unfold latchBlocking
        rw [hslot]
      · show (latchBlocking s GoError.deadlineExceeded).closed = true
        unfold latchBlocking
        rw [hslot]
  · rw [finishRun_log (fireWatchdog s rid) rid (disarm rid en)
        (findRun_fireWatchdog s rid en h),
       fireWatchdog_log, disarm_task]
  · unfold fireWatchdog
    rw [findRun_finishRun s rid]

/-- C5 witness: on `wdPool` the watchdog fires (slot free, armed), the task
still runs to completion afterwards, and firing after the task has finished
is a no-op. -/
theorem watchdog_soft_timeout_witness :
    (fireWatchdog wdPool 0).log = wdPool.log ∧
    (fireWatchdog wdPool 0).errSlot = some GoError.deadlineExceeded ∧
    (fireWatchdog wdPool 0).closed = true ∧
    (finishRun (fireWatchdog wdPool 0) 0).log = wdPool.log ++ [wdTask.eff] ∧
    fireWatchdog (finishRun wdPool 0) 0 = finishRun wdPool 0 := by
  obtain ⟨hq, hl, hdn, hmap, hfind, hfire, hfin, hcancel⟩ :=
    watchdog_soft_timeout wdPool 0 wdEntry (by decide)
  obtain ⟨he, hc⟩ := hfire (by decide) (by decide)
  exact ⟨hl, he, hc, hfin, hcancel⟩

/-- C6: for every execution from a fresh pool in which each `DoWait`
submission using completion channel `d` carries task `t` (completion
channels are fresh and private to one `DoWait` call), whenever the channel
`d` has been closed — the only event that releases the caller blocked on
`<-doneChan` — the task `t` has already fully executed: its side effect is
in the log.  The wrapper closes `d` only after `task()` returns
(lines 63-67), so any side effect of the task has occurred by the time
`DoWait` returns. -/
theorem doWait_returns_only_after_task (n : Int) (t : Task) (d : Nat)
    (tr : List Ev) (htr : ∀ e ∈ tr, enqOkB t d e = true)
    (hret : doWaitReturned (runTrace (New n) tr) d) :
    t.eff ∈ (runTrace (New n) tr).log := by
  have hinv : WrapInv t d (New n) := by
    refine ⟨?_, ?_, ?_⟩ <;> simp [New]
  exact (wrapInv_runTrace t d (New n) tr hinv htr).1 hret

/-- C6 witness: a `DoWait` task that is dispatched and finishes has its
effect in the log once its completion channel is closed. -/
theorem doWait_returns_only_after_task_witness :
    waitTask.eff ∈ (runTrace (New 1) waitTrace).log :=
  doWait_returns_only_after_task 1 waitTask 3 waitTrace (by decide)
    (show (3 : Nat) ∈ (runTrace (New 1) waitTrace).done by decide)

/-- C7: `New max` clamps the worker count to at least 1 (it is `max` when
`max ≥ 1`, else 1), allocates the task queue with capacity equal to the
clamped worker count, allocates a capacity-1 error slot, and starts with
the closed flag false and a zero timeout. -/
theorem new_pool_shape (max : Int) :
    (1 ≤ max → (New max).maxWorkersCount = max) ∧
    (max < 1 → (New max).maxWorkersCount = 1) ∧
    ((New max).queueCap : Int) = (New max).maxWorkersCount ∧
    (New max).errCap = 1 ∧
    (New max).closed = false ∧
    (New max).timeout = 0 := by
  unfold New
  by_cases h : max < 1
  · simp [h]
  · simp [h]
    omega

/-- C7 witness. -/
theorem new_pool_shape_witness :
    (New 3).maxWorkersCount = 3 ∧ (New (-5)).maxWorkersCount = 1 :=
  ⟨(new_pool_shape 3).1 (by decide), (new_pool_shape (-5)).2.1 (by decide)⟩

/-- C8: the closed flag starts false and is monotonic: no atomic action of
the program ever changes it except to store true (lines 92 and 106 are the
only writes), so once it is true it stays true under every event. -/
theorem closed_flag_monotonic :
    (∀ max : Int, (New max).closed = false) ∧
    (∀ (s : PoolState) (e : Ev), (stepEv s e).closed = s.closed ∨
       (stepEv s e).closed = true) :=
  ⟨fun _ => rfl, stepEv_closed_or⟩

/-- C9: the closed-flag check of `Do` (line 44) and the queue send
(line 48) are separate steps with no guard between them: on a fresh pool
the check passes, and if `Wait`'s `close(p.task)` (line 117) runs before
the send, the send is a send on a closed channel — a runtime panic the
implementation does not guard against. -/
theorem do_wait_race_panic_exists :
    closedCheck (New 1) = false ∧
    taskChanSend (closeTaskChan (New 1)) (QItem.plain ⟨0, none⟩) = none := by
  decide

/-- C10: if a `DoWait` wrapper is at the head of the queue when the pool is
already closed, the dequeuing worker discards it without running it
(nothing but the queue head changes), and — since executing the wrapper is
the only event that ever closes its private completion channel, and no
other submission uses that fresh channel — no continuation of the execution
ever closes it: the `DoWait` caller blocked on `<-doneChan` is never
released. -/
theorem doWait_caller_blocked_forever (s : PoolState) (t : Task) (d : Nat)
    (rest : List QItem) (tr : List Ev)
    (hq : s.queue = QItem.wrapped t d :: rest)
    (hc : s.closed = true)
    (hdone : d ∉ s.done)
    (hrest : ∀ t', QItem.wrapped t' d ∉ rest)
    (hrun : ∀ en ∈ s.running, en.doneId ≠ some d)
    (htr : ∀ e ∈ tr, noEnqD d e = true) :
    stepEv s Ev.deq = { s with queue := rest } ∧
    ¬ doWaitReturned (runTrace (stepEv s Ev.deq) tr) d := by
  have hdisc : stepEv s Ev.deq = { s with queue := rest } :=
    deq_discard s (QItem.wrapped t d) rest hq (Or.inr hc)
  refine ⟨hdisc, ?_⟩
  rw [hdisc]
  have hinv : NoD d { s with queue := rest } := ⟨hdone, hrest, hrun⟩
  exact fun hret => (noD_runTrace d _ tr hinv htr).1 hret

/-- C10 witness: on `blockedPool` the wrapper is discarded and its
completion channel is still unclosed after `Wait` closes the queue and the
worker drains it. -/
theorem doWait_caller_blocked_forever_witness :
    stepEv blockedPool Ev.deq = { blockedPool with queue := [] } ∧
    ¬ doWaitReturned (runTrace (stepEv blockedPool Ev.deq)
        [Ev.waitClose, Ev.deq]) 3 :=
  doWait_caller_blocked_forever blockedPool waitTask 3 [] [Ev.waitClose, Ev.deq]
    (by decide) (by decide) (by decide) (by simp) (by decide) (by decide)

end Workerpool
